import Mathlib

/-!
Shallow embedding of the tileset pipeline of the serpentine repository:
palette identification and image cutting (src/tileset/util.py), tile
deduplication (`extract_tileset` in src/tileset/util.py and
src/tools-py/util/tileset_util.py), and hardware serialization
(src/tileset_to_binary.py).  Machine integers (uint8/uint16/int8 numpy
arrays) are modelled as `Nat`/`Int` with explicit `% 2^w` where the code
relies on wrap-around; numpy matrices are modelled as nested lists or as
total functions guarded by the array extent; Python exceptions become
`Except`/`Option` results.
-/

set_option autoImplicit false

namespace Serpentine

/-- An RGB color, one byte per channel. -/
abbrev RGB := Nat × Nat × Nat

/-- `cmp_rgb` from src/tileset/util.py: compare two RGB colors channel by
channel, each absolute difference at most `ep` (the channels are widened to
`int` before subtracting, as the source does). -/
def cmp_rgb (a b : RGB) (ep : Nat) : Bool :=
  decide (((a.1 : Int) - (b.1 : Int)).natAbs ≤ ep) &&
  decide (((a.2.1 : Int) - (b.2.1 : Int)).natAbs ≤ ep) &&
  decide (((a.2.2 : Int) - (b.2.2 : Int)).natAbs ≤ ep)

/-- The per-pixel part of the `storage` matrix of `identify_palette`
(src/tileset/util.py): the cell starts at `-1` (here `none`) and every color
index `ci` whose color matches the pixel overwrites it, so the last matching
index survives.  `identify_palette` calls `cmp_rgb` with its default
tolerance `ep = 0`. -/
def pixIndex (pal : List RGB) (pix : RGB) : Option Nat :=
  (List.range pal.length).foldl
    (fun acc ci => if cmp_rgb pix (pal.getD ci (0, 0, 0)) 0 then some ci else acc) none

/-- The Python code raises a bare `Exception` carrying a fixed message and the
tile position; this record is that exception value. -/
structure PalError where
  msg : String
  pos : Nat × Nat × Nat × Nat
deriving DecidableEq

/-- `np.all(tile_def != -1)` over one palette's storage plane: every pixel of
the tile found some index in the palette. -/
def coversB (pal : List RGB) (tile : List (List RGB)) : Bool :=
  tile.all (fun row => row.all (fun pix => (pixIndex pal pix).isSome))

/-- The storage plane of a covering palette, read back as the indexed tile
returned by `identify_palette`. -/
def indexTile (pal : List RGB) (tile : List (List RGB)) : List (List Nat) :=
  tile.map (fun row => row.map (fun pix => (pixIndex pal pix).getD 0))

/-- First index in the list satisfying the predicate — the
`for idx in range(pal_count): if ...: return` loop shape. -/
def firstIdxAux (p : Nat → Bool) : List Nat → Option Nat
  | [] => none
  | i :: rest => if p i then some i else firstIdxAux p rest

/-- `identify_palette` from src/tileset/util.py: build the storage matrix for
every palette, return the first palette index whose plane has no `-1` left,
together with that plane as the indexed tile; raise (here: `Except.error`)
when no palette covers the tile. -/
def identify_palette (tile : List (List RGB)) (palettes : List (List RGB))
    (tile_pos : Nat × Nat × Nat × Nat) : Except PalError (List (List Nat) × Nat) :=
  match firstIdxAux (fun pi => coversB (palettes.getD pi []) tile)
      (List.range palettes.length) with
  | some pi => .ok (indexTile (palettes.getD pi []) tile, pi)
  | none => .error ⟨"Could not identify a palette for the tile.", tile_pos⟩

/-- Sequence a list of fallible results, surfacing the first error — the
behaviour of a Python loop whose body may raise. -/
def seqExcept {β : Type} : List (Except PalError β) → Except PalError (List β)
  | [] => .ok []
  | .error e :: _ => .error e
  | .ok b :: rest => (seqExcept rest).map (fun bs => b :: bs)

/-- The `image[y0:y1, x0:x1]` window extracted for tile position
`(iy, ix)` by `cut_image_into_tiles`. -/
def rawTileAt (image : Nat → Nat → RGB) (tile_h tile_w iy ix : Nat) : List (List RGB) :=
  (List.range tile_h).map (fun ty =>
    (List.range tile_w).map (fun tx => image (iy * tile_h + ty) (ix * tile_w + tx)))

/-- `cut_image_into_tiles` from src/tileset/util.py.  The output grid is
`image.shape[0] // tile_h` by `image.shape[1] // tile_w` (Python floor
division — the source performs no divisibility check); each complete tile is
converted through `identify_palette`, whose exception propagates.  The image
is a total function together with its height and width, mirroring a
rectangular ndarray; `tile_pos` is `(origin[0], origin[1], ix, iy)` as in the
source. -/
def cut_image_into_tiles (im_h im_w : Nat) (image : Nat → Nat → RGB)
    (palettes : List (List RGB)) (tile_size : Nat × Nat) (origin : Nat × Nat) :
    Except PalError (List (List (List (List Nat))) × List (List Nat)) :=
  let tile_h := tile_size.1
  let tile_w := tile_size.2
  let out_h := im_h / tile_h
  let out_w := im_w / tile_w
  match seqExcept ((List.range out_h).map (fun iy =>
      seqExcept ((List.range out_w).map (fun ix =>
        identify_palette (rawTileAt image tile_h tile_w iy ix) palettes
          (origin.1, origin.2, ix, iy))))) with
  | .error e => .error e
  | .ok rows => .ok (rows.map (fun r => r.map Prod.fst), rows.map (fun r => r.map Prod.snd))

/-! ## Tile deduplication (`extract_tileset`) -/

/-- An indexed tile: a `tile_h × tile_w` matrix of palette indices. -/
abbrev Tile := List (List Nat)

/-- `np.flipud`: reverse the rows. -/
def flipud (t : Tile) : Tile := t.reverse

/-- `np.fliplr`: reverse each row. -/
def fliplr (t : Tile) : Tile := t.map List.reverse

/-- `np.flip` on a matrix: reverse both axes. -/
def flipBoth (t : Tile) : Tile := (t.reverse).map List.reverse

/-- The per-slot comparison chain of `extract_tileset`
(src/tileset/util.py lines 303-317 and identically
src/tools-py/util/tileset_util.py): identity first, then (when enabled)
vertical flip, horizontal flip, both flips; `none` models `-1`. -/
def flipMatch (flip_v flip_h : Bool) (tile stored : Tile) : Option Nat :=
  if tile = stored then some 0
  else if flip_v = true ∧ tile = flipud stored then some 1
  else if flip_h = true ∧ tile = fliplr stored then some 2
  else if flip_v = true ∧ flip_h = true ∧ tile = flipBoth stored then some 3
  else none

/-- The shared mutable state of `extract_tileset`: the `tileset` array and the
parallel `used_tiles` bitmap (both of length `tile_count`). -/
structure TState where
  tileset : List Tile
  used : List Bool
deriving DecidableEq

/-- The `buffer` array after the slot-scanning loop of `extract_tileset`:
entry `it` is reset to `-1` (`none`) and set to the flip code only when slot
`it` is used and one of the four representations matches. -/
def matchBuffer (flip_v flip_h : Bool) (st : TState) (tile : Tile) : List (Option Nat) :=
  (List.range st.used.length).map (fun it =>
    if st.used.getD it false then flipMatch flip_v flip_h tile (st.tileset.getD it [])
    else none)

/-- The `if np.any(buffer != -1): for it: ... break` search: index and flip
code of the first buffer entry that is not `-1`. -/
def firstSome : List (Option Nat) → Option (Nat × Nat)
  | [] => none
  | some m :: _ => some (0, m)
  | none :: rest => (firstSome rest).map (fun r => (r.1 + 1, r.2))

/-- The `for it: if not used_tiles[it]: ... break` search: index of the first
free slot. -/
def firstFree : List Bool → Option Nat
  | [] => none
  | b :: rest => if b then (firstFree rest).map (fun i => i + 1) else some 0

/-- Storing an `int` into a `np.uint16` cell: reduce modulo `2^16`
(so `-1` becomes `65535`). -/
def toU16 (i : Int) : Nat := (i % 65536).toNat

/-- The body of `extract_tileset` for one tile position: scan the used slots
for a match; on a match emit the first matching slot with its flip code; on
no match store the tile in the first free slot (flip code `0`); when no slot
is free leave `tile_index = flipping = -1`.  The emitted triple passes
through the `np.uint16` output array. -/
def processTile (flip_v flip_h : Bool) (st : TState) (tile : Tile) (pal : Nat) :
    TState × (Nat × Nat × Nat) :=
  match firstSome (matchBuffer flip_v flip_h st tile) with
  | some im => (st, (toU16 im.1, toU16 pal, toU16 im.2))
  | none =>
    match firstFree st.used with
    | some it =>
        (⟨st.tileset.set it tile, st.used.set it true⟩, (toU16 it, toU16 pal, toU16 0))
    | none => (st, (toU16 (-1), toU16 pal, toU16 (-1)))

/-- `extract_tileset` from src/tileset/util.py (and, identically,
src/tools-py/util/tileset_util.py): fold `processTile` over the tile
positions in image scan order (row-major `iy`, `ix`, here already
flattened), threading the `tileset`/`used_tiles` state and collecting the
`(tile_index, palette_index, flipping)` output entries. -/
def extract_tileset (flip_v flip_h : Bool) :
    List (Tile × Nat) → TState → TState × List (Nat × Nat × Nat)
  | [], st => (st, [])
  | (tile, pal) :: rest, st =>
    let r := processTile flip_v flip_h st tile pal
    let rr := extract_tileset flip_v flip_h rest r.1
    (rr.1, r.2 :: rr.2)

/-! ## Hardware serialization (src/tileset_to_binary.py) -/

/-- The inner accumulation of `convert_to_bitplanes`
(src/tileset_to_binary.py lines 199-220) for one plane `ib` and one tile
row: the `np.uint8` accumulator is shifted left (wrapping modulo 256) and
its low bit set when the pixel has bit `ib` set, scanning the pixels left to
right. -/
def planeByte (row : List Nat) (ib : Nat) : Nat :=
  row.foldl (fun byte index =>
    let b := (byte <<< 1) % 256
    if index &&& (1 <<< ib) ≠ 0 then b ||| 1 else b) 0

/-- `convert_to_bitplanes` from src/tileset_to_binary.py, read as the
`(bit_count, tile_count, 8)` output array: entry `(ib, it, ty)` is the
accumulated byte of tile `it`, row `ty`, plane `ib`; cells outside the array
extent (or rows beyond the tile height, which the source leaves at the
`np.zeros` initialisation) are `0`. -/
def convert_to_bitplanes (tileset : List Tile) (bit_count : Nat) : Nat → Nat → Nat → Nat :=
  fun ib it ty =>
    if ib < bit_count ∧ it < tileset.length ∧ ty < 8 then
      planeByte ((tileset.getD it []).getD ty []) ib
    else 0

/-- `serial_nes` from src/tileset_to_binary.py: the loop writes
`serial[row + 8 * (bp + 2 * it)] = bitplanes[bp, it, row]` over `bp < 2`,
`it < 256`, `row < 8`.  Read as the filled 4096-byte array, the byte at
`index` is `bitplanes[index / 8 % 2, index / 16, index % 8]` (the unique
solution of the index equation); cells outside are `0`. -/
def serial_nes (bitplanes : Nat → Nat → Nat → Nat) : Nat → Nat :=
  fun index =>
    if index < 2 * 256 * 8 then bitplanes (index / 8 % 2) (index / 16) (index % 8)
    else 0

/-- `serial_intertwined` from src/tileset_to_binary.py: the loop writes
`serial[intertwine * (row + 8 * (it + tile_count * bp)) + i] =
bitplanes[bp + i, it, row]` for `bp` stepping by `intertwine`, `it <
tile_count`, `row < 8`, `i < intertwine`.  Read back as the filled array
(the source takes `bit_count` and `tile_count` from `bitplanes.shape`;
here they are explicit parameters of the function model). -/
def serial_intertwined (bitplanes : Nat → Nat → Nat → Nat)
    (bit_count tile_count intertwine : Nat) : Nat → Nat :=
  fun j =>
    if 0 < intertwine ∧ 0 < tile_count ∧ j < tile_count * bit_count * 8 then
      bitplanes (j / intertwine / 8 / tile_count + j % intertwine)
        (j / intertwine / 8 % tile_count) (j / intertwine % 8)
    else 0

/-- `serial_snes_mode7` from src/tileset_to_binary.py:
`serial[tx + ty * 8 + it * 64] = tileset[it, ty, tx]`, one byte per pixel. -/
def serial_snes_mode7 (tileset : List Tile) : Nat → Nat :=
  fun index =>
    if index < tileset.length * 8 * 8 then
      ((tileset.getD (index / 64) []).getD (index % 64 / 8) []).getD (index % 8) 0
    else 0

/-- `serial_megadrive` from src/tileset_to_binary.py: the loop writes
`serial[(tx // 2) + ty * 4 + it * 32] = ((tileset[it,ty,tx] & 0b1111) << 4)
| (tileset[it,ty,tx+1] & 0b1111)` over `it`, `ty < tile_h`, even `tx`.
Read as the filled array: at `index`, `it = index / 32`, `ty = index % 32 / 4`,
`tx = index % 4 * 2`. -/
def serial_megadrive (tileset : List Tile) : Nat → Nat :=
  fun index =>
    if index < tileset.length * 4 * 8 then
      ((((tileset.getD (index / 32) []).getD (index % 32 / 4) []).getD
          (index % 4 * 2) 0 &&& 15) <<< 4) |||
        (((tileset.getD (index / 32) []).getD (index % 32 / 4) []).getD
          (index % 4 * 2 + 1) 0 &&& 15)
    else 0

/-- The fields of the `System` class (src/builder/tileset/system.py) that
the serialization dispatch of `process` reads. -/
structure SystemProfile where
  name : String
  use_bitplanes : Bool
  bit_count : Nat
  intertwined : Nat

/-- The Megadrive entry of the system table (src/builder/tileset/system.py):
`System('md', pal_count=4, pal_size=16, intertwined=4, tile_count=2048)`.
`pal_size = 16` gives `bit_count = int(log2(16)) = 4`, and `use_bitplanes`
keeps the constructor's default `True` — the `'md'` entries do not override
it (only the SNES mode7 path in `Config.run` ever clears the flag). -/
def md_profile : SystemProfile :=
  { name := "md", use_bitplanes := true, bit_count := 4, intertwined := 4 }

/-- The serialization dispatch of `process` (src/tileset_to_binary.py lines
146-165): bitplane systems go through `convert_to_bitplanes` and then
`serial_nes` or `serial_intertwined`; otherwise `snes` means Mode-7 and
`md` means `serial_megadrive`; any other combination leaves `serial = None`
(the source then raises). -/
def process_serial (system : SystemProfile) (tileset : List Tile) : Option (Nat → Nat) :=
  if system.use_bitplanes then
    if system.name = "nes" then
      some (serial_nes (convert_to_bitplanes tileset system.bit_count))
    else
      some (serial_intertwined (convert_to_bitplanes tileset system.bit_count)
        system.bit_count tileset.length system.intertwined)
  else if system.name = "snes" then some (serial_snes_mode7 tileset)
  else if system.name = "md" then some (serial_megadrive tileset)
  else none

/-! ## Helper lemmas about lists and the search primitives -/

theorem getD_set_self {α : Type} (l : List α) (i : Nat) (v d : α) (h : i < l.length) :
    (l.set i v).getD i d = v := by
  simp [List.getD_eq_getElem?_getD, List.getElem?_set_self h]

theorem getD_set_ne {α : Type} (l : List α) (i j : Nat) (v d : α) (h : i ≠ j) :
    (l.set i v).getD j d = l.getD j d := by
  simp [List.getD_eq_getElem?_getD, List.getElem?_set_ne h]

theorem getD_range_map {α : Type} (f : Nat → α) (n j : Nat) (d : α) (h : j < n) :
    ((List.range n).map f).getD j d = f j := by
  simp [List.getD_eq_getElem?_getD, List.getElem?_map, List.getElem?_range h]

theorem firstSome_eq_none_iff (l : List (Option Nat)) :
    firstSome l = none ↔ ∀ x ∈ l, x = none := by
  induction l with
  | nil => simp [firstSome]
  | cons x rest ih =>
    cases x with
    | some m => simp [firstSome]
    | none => simp [firstSome, Option.map_eq_none', ih]

theorem firstSome_eq_some_iff (l : List (Option Nat)) : ∀ i m : Nat,
    firstSome l = some (i, m) ↔
      l.getD i none = some m ∧ ∀ j, j < i → l.getD j none = none := by
  induction l with
  | nil => intro i m; simp [firstSome]
  | cons x rest ih =>
    intro i m
    cases x with
    | some m0 =>
      cases i with
      | zero => simp [firstSome]
      | succ j =>
        simp only [firstSome, List.getD_cons_succ]
        constructor
        · intro h; simp at h
        · rintro ⟨-, h2⟩
          have h0 := h2 0 (by omega)
          simp at h0
    | none =>
      cases i with
      | zero =>
        simp only [firstSome]
        constructor
        · intro h
          rcases Option.map_eq_some'.mp h with ⟨r, -, he⟩
          have : r.1 + 1 = 0 := congrArg Prod.fst he
          omega
        · rintro ⟨h1, -⟩; simp at h1
      | succ j =>
        simp only [firstSome, List.getD_cons_succ]
        constructor
        · intro h
          rcases Option.map_eq_some'.mp h with ⟨r, hr, he⟩
          have he1 : r.1 + 1 = j + 1 := congrArg Prod.fst he
          have he2 : r.2 = m := congrArg Prod.snd he
          have hrj : firstSome rest = some (j, m) := by
            have : r = (j, m) := by
              obtain ⟨r1, r2⟩ := r
              simp only [Prod.mk.injEq]
              exact ⟨by simpa using by omega, he2⟩
            rwa [this] at hr
          rcases (ih j m).mp hrj with ⟨a, b⟩
          refine ⟨a, ?_⟩
          intro k hk
          cases k with
          | zero => rfl
          | succ k2 => simpa using b k2 (by omega)
        · rintro ⟨h1, h2⟩
          have h2' : ∀ k, k < j → rest.getD k none = none := by
            intro k hk
            simpa using h2 (k + 1) (by omega)
          rw [(ih j m).mpr ⟨h1, h2'⟩]
          rfl

theorem firstFree_eq_none_iff (l : List Bool) :
    firstFree l = none ↔ ∀ x ∈ l, x = true := by
  induction l with
  | nil => simp [firstFree]
  | cons b rest ih => cases b <;> simp [firstFree, Option.map_eq_none', ih]

theorem firstFree_eq_some_iff (l : List Bool) : ∀ i : Nat,
    firstFree l = some i ↔
      i < l.length ∧ l.getD i false = false ∧ ∀ j, j < i → l.getD j false = true := by
  induction l with
  | nil => intro i; simp [firstFree]
  | cons b rest ih =>
    intro i
    cases b with
    | false =>
      cases i with
      | zero => simp [firstFree]
      | succ j =>
        simp only [firstFree]
        constructor
        · intro h; simp at h
        · rintro ⟨-, -, h3⟩
          have := h3 0 (by omega)
          simp at this
    | true =>
      cases i with
      | zero =>
        simp only [firstFree]
        constructor
        · intro h
          rcases Option.map_eq_some'.mp h with ⟨r, -, he⟩
          omega
        · rintro ⟨-, h2, -⟩; simp at h2
      | succ j =>
        simp only [firstFree, List.getD_cons_succ, List.length_cons]
        constructor
        · intro h
          rcases Option.map_eq_some'.mp h with ⟨r, hr, he⟩
          have hrj : r = j := by omega
          rw [hrj] at hr
          rcases (ih j).mp hr with ⟨a, b, c⟩
          refine ⟨by omega, b, ?_⟩
          intro k hk
          cases k with
          | zero => rfl
          | succ k2 => simpa using c k2 (by omega)
        · rintro ⟨h1, h2, h3⟩
          have h3' : ∀ k, k < j → rest.getD k false = true := by
            intro k hk
            simpa using h3 (k + 1) (by omega)
          rw [(ih j).mpr ⟨by omega, h2, h3'⟩]
          rfl

theorem matchBuffer_getD (flip_v flip_h : Bool) (st : TState) (tile : Tile) (j : Nat)
    (hj : j < st.used.length) :
    (matchBuffer flip_v flip_h st tile).getD j none =
      if st.used.getD j false then flipMatch flip_v flip_h tile (st.tileset.getD j [])
      else none := by
  simp only [matchBuffer]
  exact getD_range_map _ _ _ _ hj

theorem extract_tileset_output_length (flip_v flip_h : Bool) :
    ∀ (tiles : List (Tile × Nat)) (st : TState),
      (extract_tileset flip_v flip_h tiles st).2.length = tiles.length
  | [], _ => rfl
  | (t, p) :: rest, st => by
    simp [extract_tileset, extract_tileset_output_length flip_v flip_h rest]

theorem processTile_used_length (flip_v flip_h : Bool) (st : TState) (tile : Tile)
    (pal : Nat) :
    (processTile flip_v flip_h st tile pal).1.used.length = st.used.length := by
  rcases h1 : firstSome (matchBuffer flip_v flip_h st tile) with - | im
  · rcases h2 : firstFree st.used with - | it
    · simp [processTile, h1, h2]
    · simp [processTile, h1, h2]
  · simp [processTile, h1]

theorem processTile_preserves_used (flip_v flip_h : Bool) (st : TState) (tile : Tile)
    (pal : Nat) (i : Nat) (h : st.used.getD i false = true) :
    (processTile flip_v flip_h st tile pal).1.used.getD i false = true ∧
    (processTile flip_v flip_h st tile pal).1.tileset.getD i [] = st.tileset.getD i [] := by
  rcases h1 : firstSome (matchBuffer flip_v flip_h st tile) with - | im
  · rcases h2 : firstFree st.used with - | it
    · simp only [processTile, h1, h2]
      exact ⟨h, trivial⟩
    · have hfree := (firstFree_eq_some_iff st.used it).mp h2
      have hne : it ≠ i := by
        intro he
        rw [he] at hfree
        rw [h] at hfree
        simp at hfree
      simp only [processTile, h1, h2]
      exact ⟨(getD_set_ne _ _ _ _ _ hne).trans h, getD_set_ne _ _ _ _ _ hne⟩
  · simp only [processTile, h1]
    exact ⟨h, trivial⟩

/-! ## Claim C9 -/

/-- C9: `extract_tileset` never overwrites a stored tile: a slot that is used
at some point of a run stays used with the same stored tile for the rest of
the run (every write goes through the first-free-slot branch, whose target
slot was free immediately before the write). -/
theorem extract_never_overwrites (flip_v flip_h : Bool) (tiles : List (Tile × Nat)) :
    ∀ (st : TState) (i : Nat), st.used.getD i false = true →
      (extract_tileset flip_v flip_h tiles st).1.used.getD i false = true ∧
      (extract_tileset flip_v flip_h tiles st).1.tileset.getD i [] =
        st.tileset.getD i [] := by
  induction tiles with
  | nil =>
    intro st i h
    exact ⟨h, rfl⟩
  | cons tp rest ih =>
    intro st i h
    obtain ⟨t, p⟩ := tp
    have hp := processTile_preserves_used flip_v flip_h st t p i h
    have hr := ih (processTile flip_v flip_h st t p).1 i hp.1
    simp only [extract_tileset]
    exact ⟨hr.1, hr.2.trans hp.2⟩

/-- C9 witness: one used slot holding tile `[[7]]` survives the processing of
a fresh tile unchanged. -/
theorem extract_never_overwrites_witness :
    (extract_tileset false false [([[5]], 0)] ⟨[[[7]]], [true]⟩).1.used.getD 0 false
        = true ∧
    (extract_tileset false false [([[5]], 0)] ⟨[[[7]]], [true]⟩).1.tileset.getD 0 [] =
      (⟨[[[7]]], [true]⟩ : TState).tileset.getD 0 [] :=
  extract_never_overwrites false false [([[5]], 0)] ⟨[[[7]]], [true]⟩ 0 (by decide)

/-! ## Claim C1 -/

/-- C1 counterexample: slot 0 stores `[[0],[1]]`, slot 1 stores `[[1],[0]]`,
vertical flipping is enabled.  The incoming tile `[[1],[0]]` equals the tile
stored in (used) slot 1 without any flipping, yet `extract_tileset` emits
slot 0 with flip code `0b01` (vertical flip), because the scan takes the
first slot matching *any* representation — identity matches in higher slots
do not win over flip matches in lower slots. -/
theorem extract_identity_preference_cex :
    ((⟨[[[0], [1]], [[1], [0]]], [true, true]⟩ : TState).used.getD 1 false = true) ∧
    ((⟨[[[0], [1]], [[1], [0]]], [true, true]⟩ : TState).tileset.getD 1 [] = [[1], [0]]) ∧
    (processTile true false ⟨[[[0], [1]], [[1], [0]]], [true, true]⟩ [[1], [0]] 0).2 =
      (0, 0, 1) ∧
    (processTile true false ⟨[[[0], [1]], [[1], [0]]], [true, true]⟩ [[1], [0]] 0).2 ≠
      (1, 0, 0) := by
  decide

/-- C1, amended: the emitted entry records the lowest-indexed used slot
matching *any* legal representation of the tile; the identity representation
is preferred only among the representations of that same slot (the per-slot
priority is identity, then vertical, horizontal, both flips), so the first
matching slot wins even when a higher-indexed slot matches without
flipping. -/
theorem extract_lowest_matching_slot_wins (flip_v flip_h : Bool) (st : TState)
    (tile : Tile) (pal i m : Nat)
    (hi : i < st.used.length)
    (hu : st.used.getD i false = true)
    (hm : flipMatch flip_v flip_h tile (st.tileset.getD i []) = some m)
    (hlt : ∀ j, j < i → st.used.getD j false = true →
      flipMatch flip_v flip_h tile (st.tileset.getD j []) = none) :
    processTile flip_v flip_h st tile pal = (st, (toU16 i, toU16 pal, toU16 m)) := by
  have hfs : firstSome (matchBuffer flip_v flip_h st tile) = some (i, m) := by
    rw [firstSome_eq_some_iff]
    constructor
    · rw [matchBuffer_getD flip_v flip_h st tile i hi, hu]
      simpa using hm
    · intro j hj
      rw [matchBuffer_getD flip_v flip_h st tile j (by omega)]
      cases hju : st.used.getD j false with
      | false => simp
      | true => simpa using hlt j hj hju
  simp [processTile, hfs]

/-- C1 witness: a single used slot holding the incoming tile itself is
reported as `(slot 0, flip 0)`. -/
theorem extract_lowest_matching_slot_wins_witness :
    processTile false false ⟨[[[7]]], [true]⟩ [[7]] 5 =
      (⟨[[[7]]], [true]⟩, (toU16 0, toU16 5, toU16 0)) :=
  extract_lowest_matching_slot_wins false false ⟨[[[7]]], [true]⟩ [[7]] 5 0 0
    (by decide) (by decide) (by decide) (by intro j hj; omega)

/-! ## Claim C2 -/

/-- C2 counterexample: a full one-slot tileset holding `[[0],[1]]` receives
the unmatched tile `[[1],[0]]` (no flipping allowed).  No
`TilesetCapacityExceeded` failure exists: the run returns normally, the
overflowing position gets the sentinel entry `(65535, pal, 65535)`, and the
next position is still processed. -/
theorem extract_capacity_no_error_cex :
    extract_tileset false false [([[1], [0]], 0), ([[0], [1]], 2)]
        ⟨[[[0], [1]]], [true]⟩ =
      (⟨[[[0], [1]]], [true]⟩, [(65535, 0, 65535), (0, 2, 0)]) := by
  decide

theorem matchBuffer_none_of_no_match (flip_v flip_h : Bool) (st : TState) (tile : Tile)
    (hnm : ∀ j, j < st.used.length → st.used.getD j false = true →
      flipMatch flip_v flip_h tile (st.tileset.getD j []) = none) :
    firstSome (matchBuffer flip_v flip_h st tile) = none := by
  rw [firstSome_eq_none_iff]
  intro x hx
  rcases List.mem_map.mp hx with ⟨j, hj, hfx⟩
  have hjlt : j < st.used.length := List.mem_range.mp hj
  rw [← hfx]
  cases hju : st.used.getD j false with
  | false => simp [hju]
  | true => simpa [hju] using hnm j hjlt hju

theorem processTile_alloc (flip_v flip_h : Bool) (st : TState) (tile : Tile) (pal : Nat)
    (hnm : ∀ j, j < st.used.length → st.used.getD j false = true →
      flipMatch flip_v flip_h tile (st.tileset.getD j []) = none)
    (it : Nat) (hit : it < st.used.length) (hfree : st.used.getD it false = false)
    (hprev : ∀ j, j < it → st.used.getD j false = true) :
    processTile flip_v flip_h st tile pal =
      (⟨st.tileset.set it tile, st.used.set it true⟩, (toU16 it, toU16 pal, toU16 0)) := by
  have hfs := matchBuffer_none_of_no_match flip_v flip_h st tile hnm
  have hff : firstFree st.used = some it :=
    (firstFree_eq_some_iff st.used it).mpr ⟨hit, hfree, hprev⟩
  simp [processTile, hfs, hff]

theorem processTile_full_sentinel (flip_v flip_h : Bool) (st : TState) (tile : Tile)
    (pal : Nat)
    (hnm : ∀ j, j < st.used.length → st.used.getD j false = true →
      flipMatch flip_v flip_h tile (st.tileset.getD j []) = none)
    (hall : ∀ j, j < st.used.length → st.used.getD j false = true) :
    processTile flip_v flip_h st tile pal = (st, (65535, toU16 pal, 65535)) := by
  have hfs := matchBuffer_none_of_no_match flip_v flip_h st tile hnm
  have hff : firstFree st.used = none := by
    rw [firstFree_eq_none_iff]
    intro x hx
    rcases List.mem_iff_getElem.mp hx with ⟨j, hj, hgx⟩
    have hg := hall j hj
    rw [List.getD_eq_getElem _ _ hj] at hg
    rw [← hgx]
    exact hg
  simp [processTile, hfs, hff]
  rfl

/-- C2, amended: when no used slot matches the tile, the tile is stored in
the lowest-indexed free slot, which is marked used with flip code `0`; when
no free slot exists the emitted entry holds the sentinels `65535` (the `-1`
values cast to `uint16`) instead of an error being raised; the `used_tiles`
bitmap keeps its length, so the number of used slots never exceeds the
tileset capacity. -/
theorem extract_alloc_and_capacity (flip_v flip_h : Bool) (st : TState) (tile : Tile)
    (pal : Nat)
    (hnm : ∀ j, j < st.used.length → st.used.getD j false = true →
      flipMatch flip_v flip_h tile (st.tileset.getD j []) = none) :
    (∀ it, it < st.used.length → st.used.getD it false = false →
      (∀ j, j < it → st.used.getD j false = true) →
      processTile flip_v flip_h st tile pal =
        (⟨st.tileset.set it tile, st.used.set it true⟩, (toU16 it, toU16 pal, toU16 0))) ∧
    ((∀ j, j < st.used.length → st.used.getD j false = true) →
      processTile flip_v flip_h st tile pal = (st, (65535, toU16 pal, 65535))) ∧
    (processTile flip_v flip_h st tile pal).1.used.count true ≤ st.used.length := by
  refine ⟨fun it hit hfree hprev =>
      processTile_alloc flip_v flip_h st tile pal hnm it hit hfree hprev,
    fun hall => processTile_full_sentinel flip_v flip_h st tile pal hnm hall, ?_⟩
  calc (processTile flip_v flip_h st tile pal).1.used.count true
      ≤ (processTile flip_v flip_h st tile pal).1.used.length :=
        List.count_le_length true _
    _ = st.used.length := processTile_used_length flip_v flip_h st tile pal

/-- C2 witness: instantiating the amended statement on a two-slot state whose
slot 0 is used, with a fresh tile: it is stored in slot 1. -/
theorem extract_alloc_and_capacity_witness :
    ((∀ it, it < 2 → ([true, false] : List Bool).getD it false = false →
      (∀ j, j < it → ([true, false] : List Bool).getD j false = true) →
      processTile false false ⟨[[[0]], []], [true, false]⟩ [[1]] 3 =
        (⟨([[0]] :: [[]] : List Tile).set it [[1]],
          ([true, false] : List Bool).set it true⟩, (toU16 it, toU16 3, toU16 0))) ∧
    ((∀ j, j < 2 → ([true, false] : List Bool).getD j false = true) →
      processTile false false ⟨[[[0]], []], [true, false]⟩ [[1]] 3 =
        (⟨[[[0]], []], [true, false]⟩, (65535, toU16 3, 65535))) ∧
    (processTile false false ⟨[[[0]], []], [true, false]⟩ [[1]] 3).1.used.count true ≤ 2) :=
  extract_alloc_and_capacity false false ⟨[[[0]], []], [true, false]⟩ [[1]] 3
    (by decide)

/-! ## Claim C10 -/

/-- C10: `extract_tileset` is total (the source contains no `raise`); when
every slot is used and none matches, the emitted entry is
`(65535, palette, 65535)` — the `-1` sentinels cast to `uint16` together
with the position's palette index — the state is unchanged, and the
remaining tile positions are still processed (one output entry per input
position). -/
theorem extract_total_sentinel_continues (flip_v flip_h : Bool) (st : TState)
    (tile : Tile) (pal : Nat) (rest : List (Tile × Nat))
    (hfull : ∀ j, j < st.used.length → st.used.getD j false = true)
    (hnm : ∀ j, j < st.used.length →
      flipMatch flip_v flip_h tile (st.tileset.getD j []) = none) :
    processTile flip_v flip_h st tile pal = (st, (65535, toU16 pal, 65535)) ∧
    extract_tileset flip_v flip_h ((tile, pal) :: rest) st =
      ((extract_tileset flip_v flip_h rest st).1,
        (65535, toU16 pal, 65535) :: (extract_tileset flip_v flip_h rest st).2) ∧
    (extract_tileset flip_v flip_h ((tile, pal) :: rest) st).2.length =
      rest.length + 1 := by
  have hp : processTile flip_v flip_h st tile pal = (st, (65535, toU16 pal, 65535)) :=
    processTile_full_sentinel flip_v flip_h st tile pal (fun j hj _ => hnm j hj) hfull
  refine ⟨hp, ?_, ?_⟩
  · simp [extract_tileset, hp]
  · rw [extract_tileset_output_length]
    simp

/-- C10 witness: a full one-slot tileset and one more position to process
after the overflowing one. -/
theorem extract_total_sentinel_continues_witness :
    processTile false false ⟨[[[0], [1]]], [true]⟩ [[1], [0]] 4 =
      (⟨[[[0], [1]]], [true]⟩, (65535, toU16 4, 65535)) ∧
    extract_tileset false false [([[1], [0]], 4), ([[0], [1]], 2)]
        ⟨[[[0], [1]]], [true]⟩ =
      ((extract_tileset false false [([[0], [1]], 2)] ⟨[[[0], [1]]], [true]⟩).1,
        (65535, toU16 4, 65535) ::
          (extract_tileset false false [([[0], [1]], 2)] ⟨[[[0], [1]]], [true]⟩).2) ∧
    (extract_tileset false false [([[1], [0]], 4), ([[0], [1]], 2)]
        ⟨[[[0], [1]]], [true]⟩).2.length = 1 + 1 :=
  extract_total_sentinel_continues false false ⟨[[[0], [1]]], [true]⟩ [[1], [0]] 4
    [([[0], [1]], 2)] (by decide) (by decide)

/-! ## Palette identification: semantic characterization -/

theorem cmp_rgb_zero_iff (a b : RGB) : cmp_rgb a b 0 = true ↔ a = b := by
  obtain ⟨a1, a2, a3⟩ := a
  obtain ⟨b1, b2, b3⟩ := b
  simp only [cmp_rgb, Bool.and_eq_true, decide_eq_true_eq, Prod.mk.injEq]
  omega

theorem foldl_lastIdx_eq_none (p : Nat → Bool) :
    ∀ (n : Nat) (acc : Option Nat),
      ((List.range n).foldl (fun a ci => if p ci then some ci else a) acc = none ↔
        acc = none ∧ ∀ ci, ci < n → p ci = false) := by
  intro n
  induction n with
  | zero => intro acc; simp
  | succ k ih =>
    intro acc
    rw [List.range_succ, List.foldl_append]
    simp only [List.foldl_cons, List.foldl_nil]
    cases hpk : p k with
    | true =>
      rw [if_pos rfl]
      constructor
      · intro h; cases h
      · rintro ⟨-, h2⟩
        have := h2 k (by omega)
        rw [hpk] at this
        cases this
    | false =>
      rw [if_neg Bool.false_ne_true]
      rw [ih acc]
      constructor
      · rintro ⟨h1, h2⟩
        refine ⟨h1, ?_⟩
        intro ci hci
        rcases Nat.lt_succ_iff_lt_or_eq.mp hci with h | h
        · exact h2 ci h
        · rw [h]; exact hpk
      · rintro ⟨h1, h2⟩
        exact ⟨h1, fun ci hci => h2 ci (by omega)⟩

theorem foldl_lastIdx_eq_some (p : Nat → Bool) :
    ∀ (n : Nat) (acc : Option Nat) (ci : Nat),
      ((List.range n).foldl (fun a k => if p k then some k else a) acc = some ci) →
      acc = some ci ∨ (ci < n ∧ p ci = true) := by
  intro n
  induction n with
  | zero =>
    intro acc ci h
    simp only [List.range_zero, List.foldl_nil] at h
    exact Or.inl h
  | succ k ih =>
    intro acc ci h
    rw [List.range_succ, List.foldl_append] at h
    simp only [List.foldl_cons, List.foldl_nil] at h
    cases hpk : p k with
    | true =>
      rw [hpk, if_pos rfl] at h
      have hki : k = ci := by simpa using h
      exact Or.inr ⟨by omega, by rw [← hki]; exact hpk⟩
    | false =>
      rw [hpk, if_neg Bool.false_ne_true] at h
      rcases ih acc ci h with h1 | h2
      · exact Or.inl h1
      · exact Or.inr ⟨by omega, h2.2⟩

theorem pixIndex_eq_none_iff (pal : List RGB) (pix : RGB) :
    pixIndex pal pix = none ↔
      ∀ ci, ci < pal.length → cmp_rgb pix (pal.getD ci (0, 0, 0)) 0 = false := by
  unfold pixIndex
  rw [foldl_lastIdx_eq_none]
  simp

theorem pixIndex_eq_some (pal : List RGB) (pix : RGB) (ci : Nat)
    (h : pixIndex pal pix = some ci) :
    ci < pal.length ∧ pal.getD ci (0, 0, 0) = pix := by
  rcases foldl_lastIdx_eq_some _ _ _ _ h with h1 | h2
  · cases h1
  · exact ⟨h2.1, ((cmp_rgb_zero_iff pix _).mp h2.2).symm⟩

theorem pixIndex_isSome_iff (pal : List RGB) (pix : RGB) :
    (pixIndex pal pix).isSome = true ↔ pix ∈ pal := by
  constructor
  · intro h
    rcases Option.isSome_iff_exists.mp h with ⟨ci, hci⟩
    rcases pixIndex_eq_some pal pix ci hci with ⟨hlt, heq⟩
    rw [← heq, List.getD_eq_getElem _ _ hlt]
    exact List.getElem_mem hlt
  · intro h
    rcases List.mem_iff_getElem.mp h with ⟨ci, hlt, hgx⟩
    rw [Option.isSome_iff_ne_none, Ne, pixIndex_eq_none_iff]
    intro hall
    have hc := hall ci hlt
    rw [List.getD_eq_getElem _ _ hlt, hgx] at hc
    have ht : cmp_rgb pix pix 0 = true := (cmp_rgb_zero_iff pix pix).mpr rfl
    rw [ht] at hc
    cases hc

/-- The spec's notion of a palette covering a tile: every pixel's color is a
member of the palette. -/
def coversP (pal : List RGB) (tile : List (List RGB)) : Prop :=
  ∀ row ∈ tile, ∀ pix ∈ row, pix ∈ pal

theorem coversB_iff (pal : List RGB) (tile : List (List RGB)) :
    coversB pal tile = true ↔ coversP pal tile := by
  simp [coversB, coversP, pixIndex_isSome_iff]

theorem firstIdxAux_cons (p : Nat → Bool) (a : Nat) (rest : List Nat) :
    firstIdxAux p (a :: rest) = if p a then some a else firstIdxAux p rest := rfl

theorem firstIdxAux_eq_none_iff (p : Nat → Bool) (l : List Nat) :
    firstIdxAux p l = none ↔ ∀ i ∈ l, p i = false := by
  induction l with
  | nil => simp [firstIdxAux]
  | cons i rest ih =>
    rw [firstIdxAux_cons]
    cases hpi : p i with
    | true => simp [hpi]
    | false => simp [hpi, ih]

theorem firstIdxAux_append_some (p : Nat → Bool) (l1 l2 : List Nat) (i : Nat)
    (h : firstIdxAux p l1 = some i) :
    firstIdxAux p (l1 ++ l2) = some i := by
  induction l1 with
  | nil => cases h
  | cons a rest ih =>
    rw [List.cons_append]
    cases hpa : p a with
    | true =>
      rw [firstIdxAux_cons, hpa, if_pos rfl] at h
      rw [firstIdxAux_cons, hpa, if_pos rfl]
      exact h
    | false =>
      rw [firstIdxAux_cons, hpa, if_neg Bool.false_ne_true] at h
      rw [firstIdxAux_cons, hpa, if_neg Bool.false_ne_true]
      exact ih h

theorem firstIdxAux_append_none (p : Nat → Bool) (l1 l2 : List Nat)
    (h : firstIdxAux p l1 = none) :
    firstIdxAux p (l1 ++ l2) = firstIdxAux p l2 := by
  induction l1 with
  | nil => rfl
  | cons a rest ih =>
    rw [List.cons_append]
    cases hpa : p a with
    | true =>
      rw [firstIdxAux_cons, hpa, if_pos rfl] at h
      cases h
    | false =>
      rw [firstIdxAux_cons, hpa, if_neg Bool.false_ne_true] at h
      rw [firstIdxAux_cons, hpa, if_neg Bool.false_ne_true]
      exact ih h

theorem firstIdxAux_range_eq_some_iff (p : Nat → Bool) :
    ∀ n i, firstIdxAux p (List.range n) = some i ↔
      i < n ∧ p i = true ∧ ∀ j, j < i → p j = false := by
  intro n
  induction n with
  | zero => intro i; simp [firstIdxAux]
  | succ k ih =>
    intro i
    rw [List.range_succ]
    cases hf : firstIdxAux p (List.range k) with
    | some i0 =>
      rw [firstIdxAux_append_some p _ _ _ hf]
      rcases (ih i0).mp hf with ⟨h1, h2, h3⟩
      constructor
      · intro h
        have : i0 = i := by simpa using h
        rw [← this]
        exact ⟨by omega, h2, h3⟩
      · rintro ⟨g1, g2, g3⟩
        have : i = i0 := by
          by_contra hne
          rcases Nat.lt_or_ge i i0 with hlt | hge
          · have := h3 i hlt
            rw [g2] at this
            cases this
          · have hlt2 : i0 < i := by omega
            have := g3 i0 hlt2
            rw [h2] at this
            cases this
        rw [this]
    | none =>
      rw [firstIdxAux_append_none p _ _ hf]
      have hn : ∀ j, j < k → p j = false := by
        intro j hj
        exact (firstIdxAux_eq_none_iff p (List.range k)).mp hf j (List.mem_range.mpr hj)
      cases hpk : p k with
      | true =>
        rw [firstIdxAux_cons, hpk, if_pos rfl]
        constructor
        · intro h
          have : k = i := by simpa using h
          rw [← this]
          exact ⟨by omega, hpk, hn⟩
        · rintro ⟨g1, g2, g3⟩
          have : i = k := by
            by_contra hne
            have hik : i < k := by omega
            have := hn i hik
            rw [g2] at this
            cases this
          rw [this]
      | false =>
        rw [firstIdxAux_cons, hpk, if_neg Bool.false_ne_true]
        constructor
        · intro h; cases h
        · rintro ⟨g1, g2, g3⟩
          rcases Nat.lt_succ_iff_lt_or_eq.mp g1 with h | h
          · have := hn i h
            rw [g2] at this
            cases this
          · rw [h] at g2
            rw [hpk] at g2
            cases g2

theorem identify_palette_ok_iff (tile : List (List RGB))
    (palettes : List (List RGB)) (pos : Nat × Nat × Nat × Nat)
    (t : List (List Nat)) (pi : Nat) :
    identify_palette tile palettes pos = .ok (t, pi) ↔
      (pi < palettes.length ∧ coversP (palettes.getD pi []) tile ∧
        (∀ j, j < pi → ¬ coversP (palettes.getD j []) tile) ∧
        t = indexTile (palettes.getD pi []) tile) := by
  constructor
  · intro h
    cases hf : firstIdxAux (fun pi => coversB (palettes.getD pi []) tile)
        (List.range palettes.length) with
    | none =>
      unfold identify_palette at h
      rw [hf] at h
      cases h
    | some p0 =>
      unfold identify_palette at h
      rw [hf] at h
      have hinj : indexTile (palettes.getD p0 []) tile = t ∧ p0 = pi := by
        simpa using h
      rcases (firstIdxAux_range_eq_some_iff _ _ p0).mp hf with ⟨h1, h2, h3⟩
      rw [← hinj.2, ← hinj.1]
      refine ⟨h1, (coversB_iff _ tile).mp h2, ?_, rfl⟩
      intro j hj hcov
      have := h3 j hj
      rw [(coversB_iff _ tile).mpr hcov] at this
      cases this
  · rintro ⟨h1, h2, h3, h4⟩
    have hf : firstIdxAux (fun pi => coversB (palettes.getD pi []) tile)
        (List.range palettes.length) = some pi := by
      rw [firstIdxAux_range_eq_some_iff]
      refine ⟨h1, (coversB_iff _ tile).mpr h2, ?_⟩
      intro j hj
      cases hc : coversB (palettes.getD j []) tile with
      | false => rfl
      | true => exact absurd ((coversB_iff _ tile).mp hc) (h3 j hj)
    unfold identify_palette
    rw [hf, h4]

theorem identify_palette_error_iff (tile : List (List RGB))
    (palettes : List (List RGB)) (pos : Nat × Nat × Nat × Nat) :
    identify_palette tile palettes pos =
        .error ⟨"Could not identify a palette for the tile.", pos⟩ ↔
      ∀ j, j < palettes.length → ¬ coversP (palettes.getD j []) tile := by
  constructor
  · intro h j hj hcov
    cases hf : firstIdxAux (fun pi => coversB (palettes.getD pi []) tile)
        (List.range palettes.length) with
    | some p0 =>
      unfold identify_palette at h
      rw [hf] at h
      cases h
    | none =>
      have := (firstIdxAux_eq_none_iff _ _).mp hf j (List.mem_range.mpr hj)
      rw [(coversB_iff _ tile).mpr hcov] at this
      cases this
  · intro h
    have hf : firstIdxAux (fun pi => coversB (palettes.getD pi []) tile)
        (List.range palettes.length) = none := by
      rw [firstIdxAux_eq_none_iff]
      intro j hjm
      have hj := List.mem_range.mp hjm
      cases hc : coversB (palettes.getD j []) tile with
      | false => rfl
      | true => exact absurd ((coversB_iff _ tile).mp hc) (h j hj)
    unfold identify_palette
    rw [hf]

/-! ## Claim C8 -/

/-- C8: `identify_palette` returns the indexed tile mapped through the
palette with the smallest index whose color set covers every pixel of the
tile (the first compatible palette in ascending index order, even when
several are compatible), and it fails — with the position-annotated
no-palette-match error — exactly when no palette in the set covers every
pixel. -/
theorem identify_palette_first_compatible (tile : List (List RGB))
    (palettes : List (List RGB)) (pos : Nat × Nat × Nat × Nat) :
    (∀ t pi, identify_palette tile palettes pos = .ok (t, pi) ↔
      (pi < palettes.length ∧ coversP (palettes.getD pi []) tile ∧
        (∀ j, j < pi → ¬ coversP (palettes.getD j []) tile) ∧
        t = indexTile (palettes.getD pi []) tile)) ∧
    (identify_palette tile palettes pos =
        .error ⟨"Could not identify a palette for the tile.", pos⟩ ↔
      ∀ j, j < palettes.length → ¬ coversP (palettes.getD j []) tile) :=
  ⟨fun t pi => identify_palette_ok_iff tile palettes pos t pi,
    identify_palette_error_iff tile palettes pos⟩

/-! ## Claim C7 -/

/-- Modelled from the spec: the size of a raw tile's "observed palette" —
the number of distinct colors it uses.  The source computes no such count
(and defines no `TooManyColors` error); this definition only serves to state
the claim's hypothesis. -/
def observedColorCount (tile : List (List RGB)) : Nat := tile.flatten.dedup.length

/-- C7 counterexample: two tiles at the same position, one with 5 and one
with 6 distinct colors, against a single 4-color palette containing none of
them.  Both runs fail with the *same* error value — the generic
"could not identify a palette" exception carrying only the message and the
position — so the raised error carries no color count and is not a distinct
`TooManyColors(position, count)` error. -/
theorem too_many_colors_error_payload_cex :
    observedColorCount [[(0, 0, 0), (1, 0, 0), (2, 0, 0), (3, 0, 0), (4, 0, 0)]] = 5 ∧
    observedColorCount
      [[(0, 0, 0), (1, 0, 0), (2, 0, 0), (3, 0, 0), (4, 0, 0), (5, 0, 0)]] = 6 ∧
    identify_palette [[(0, 0, 0), (1, 0, 0), (2, 0, 0), (3, 0, 0), (4, 0, 0)]]
        [[(9, 9, 9), (8, 8, 8), (7, 7, 7), (6, 6, 6)]] (1, 2, 3, 4) =
      .error ⟨"Could not identify a palette for the tile.", (1, 2, 3, 4)⟩ ∧
    identify_palette
        [[(0, 0, 0), (1, 0, 0), (2, 0, 0), (3, 0, 0), (4, 0, 0), (5, 0, 0)]]
        [[(9, 9, 9), (8, 8, 8), (7, 7, 7), (6, 6, 6)]] (1, 2, 3, 4) =
      identify_palette [[(0, 0, 0), (1, 0, 0), (2, 0, 0), (3, 0, 0), (4, 0, 0)]]
        [[(9, 9, 9), (8, 8, 8), (7, 7, 7), (6, 6, 6)]] (1, 2, 3, 4) :=
  ⟨rfl, rfl, rfl, rfl⟩

/-- C7, amended: when a raw tile uses more distinct colors than any
configured palette has entries, palette resolution fails and the run aborts,
but with the generic position-annotated no-palette-match exception (the same
single error used for every resolution failure, carrying the tile position
and no color count). -/
theorem too_many_colors_generic_error (tile : List (List RGB))
    (palettes : List (List RGB)) (pos : Nat × Nat × Nat × Nat)
    (h : ∀ p ∈ palettes, p.length < observedColorCount tile) :
    identify_palette tile palettes pos =
      .error ⟨"Could not identify a palette for the tile.", pos⟩ := by
  rw [identify_palette_error_iff]
  intro j hj hcov
  have hpal : palettes.getD j [] ∈ palettes := by
    rw [List.getD_eq_getElem _ _ hj]
    exact List.getElem_mem hj
  have hsub : tile.flatten.dedup ⊆ palettes.getD j [] := by
    intro pix hpix
    rcases List.mem_flatten.mp (List.dedup_subset _ hpix) with ⟨row, hrow, hpixrow⟩
    exact hcov row hrow pix hpixrow
  have hlen := ((List.nodup_dedup tile.flatten).subperm hsub).length_le
  have hcount := h _ hpal
  unfold observedColorCount at hcount
  omega

/-- C7 witness: a 1×2 tile with two distinct colors against a single
one-color palette. -/
theorem too_many_colors_generic_error_witness :
    identify_palette [[(1, 1, 1), (2, 2, 2)]] [[(0, 0, 0)]] (0, 0, 1, 1) =
      .error ⟨"Could not identify a palette for the tile.", (0, 0, 1, 1)⟩ :=
  too_many_colors_generic_error [[(1, 1, 1), (2, 2, 2)]] [[(0, 0, 0)]] (0, 0, 1, 1)
    (by decide)

/-! ## Sequencing lemmas for `cut_image_into_tiles` -/

theorem except_isOk_iff {β : Type} (x : Except PalError β) :
    x.isOk = true ↔ ∃ b, x = .ok b := by
  cases x <;> simp [Except.isOk, Except.toBool]

theorem seqExcept_ok_of_forall {β : Type} :
    ∀ l : List (Except PalError β), (∀ x ∈ l, ∃ b, x = .ok b) →
      ∃ bs, seqExcept l = .ok bs ∧ bs.length = l.length := by
  intro l
  induction l with
  | nil => intro h; exact ⟨[], rfl, rfl⟩
  | cons x rest ih =>
    intro h
    rcases h x (by simp) with ⟨b, hb⟩
    rcases ih (fun y hy => h y (by simp [hy])) with ⟨bs, hbs, hlen⟩
    subst hb
    refine ⟨b :: bs, ?_, by simp [hlen]⟩
    simp [seqExcept, hbs, Except.map]

theorem seqExcept_ok_lengths {β : Type} :
    ∀ (l : List (Except PalError β)) (bs : List β), seqExcept l = .ok bs →
      bs.length = l.length ∧ ∀ b ∈ bs, Except.ok b ∈ l := by
  intro l
  induction l with
  | nil =>
    intro bs h
    simp only [seqExcept] at h
    have : ([] : List β) = bs := by simpa using h
    subst this
    exact ⟨rfl, by simp⟩
  | cons x rest ih =>
    intro bs h
    cases x with
    | error e => simp [seqExcept] at h
    | ok b =>
      simp only [seqExcept] at h
      cases hr : seqExcept rest with
      | error e =>
        rw [hr] at h
        simp [Except.map] at h
      | ok bs0 =>
        rw [hr] at h
        simp only [Except.map] at h
        have hbs : b :: bs0 = bs := by simpa using h
        subst hbs
        rcases ih bs0 hr with ⟨hlen, hmem⟩
        refine ⟨by simp [hlen], ?_⟩
        intro c hc
        rcases List.mem_cons.mp hc with h1 | h1
        · rw [h1]; exact List.mem_cons_self _ _
        · exact List.mem_cons_of_mem _ (hmem c h1)

/-! ## Claim C6 -/

/-- C6 counterexample: a 3×2 all-black image cut into 2×2 tiles.  The height
3 is not a multiple of the tile height 2, yet cutting succeeds with the
single complete tile (the partial bottom row is silently dropped); no
`ShapeError` is raised. -/
theorem cut_no_shape_error_cex :
    (3 : Nat) % 2 = 1 ∧
    cut_image_into_tiles 3 2 (fun _ _ => (0, 0, 0)) [[(0, 0, 0)]] (2, 2) (0, 0) =
      .ok ([[[[0, 0], [0, 0]]]], [[0]]) :=
  ⟨rfl, rfl⟩

/-- C6, amended: `cut_image_into_tiles` performs no divisibility check and
raises no shape error: it processes exactly the `⌊im_h/tile_h⌋ × ⌊im_w/tile_w⌋`
grid of complete tiles, silently ignoring any partial border band, and it
succeeds whenever every complete tile resolves a palette. -/
theorem cut_floor_division (im_h im_w : Nat) (image : Nat → Nat → RGB)
    (palettes : List (List RGB)) (tile_h tile_w : Nat) (origin : Nat × Nat)
    (h : ∀ iy, iy < im_h / tile_h → ∀ ix, ix < im_w / tile_w →
      (identify_palette (rawTileAt image tile_h tile_w iy ix) palettes
        (origin.1, origin.2, ix, iy)).isOk = true) :
    (cut_image_into_tiles im_h im_w image palettes (tile_h, tile_w) origin).isOk
        = true ∧
    ∀ tiles pmap,
      cut_image_into_tiles im_h im_w image palettes (tile_h, tile_w) origin =
        .ok (tiles, pmap) →
      tiles.length = im_h / tile_h ∧ pmap.length = im_h / tile_h ∧
      (∀ r ∈ tiles, r.length = im_w / tile_w) ∧
      (∀ r ∈ pmap, r.length = im_w / tile_w) := by
  have hin : ∀ iy, iy < im_h / tile_h →
      ∃ row, seqExcept ((List.range (im_w / tile_w)).map (fun ix =>
        identify_palette (rawTileAt image tile_h tile_w iy ix) palettes
          (origin.1, origin.2, ix, iy))) = .ok row ∧
        row.length = im_w / tile_w := by
    intro iy hiy
    have hall : ∀ x ∈ (List.range (im_w / tile_w)).map (fun ix =>
        identify_palette (rawTileAt image tile_h tile_w iy ix) palettes
          (origin.1, origin.2, ix, iy)), ∃ b, x = .ok b := by
      intro x hx
      rcases List.mem_map.mp hx with ⟨ix, hix, hfx⟩
      rcases (except_isOk_iff _).mp (h iy hiy ix (List.mem_range.mp hix)) with ⟨r, hr⟩
      exact ⟨r, by rw [← hfx]; exact hr⟩
    rcases seqExcept_ok_of_forall _ hall with ⟨row, h1, h2⟩
    exact ⟨row, h1, by simpa using h2⟩
  have hallout : ∀ x ∈ (List.range (im_h / tile_h)).map
      (fun iy => seqExcept ((List.range (im_w / tile_w)).map (fun ix =>
        identify_palette (rawTileAt image tile_h tile_w iy ix) palettes
          (origin.1, origin.2, ix, iy)))), ∃ b, x = .ok b := by
    intro x hx
    rcases List.mem_map.mp hx with ⟨iy, hiy, hfx⟩
    rcases hin iy (List.mem_range.mp hiy) with ⟨row, h1, -⟩
    exact ⟨row, by rw [← hfx]; exact h1⟩
  rcases seqExcept_ok_of_forall _ hallout with ⟨rows, hrows, hrowslen⟩
  have hcut : cut_image_into_tiles im_h im_w image palettes (tile_h, tile_w) origin =
      .ok (rows.map (fun r => r.map Prod.fst), rows.map (fun r => r.map Prod.snd)) := by
    have hdef : cut_image_into_tiles im_h im_w image palettes (tile_h, tile_w) origin =
        match seqExcept ((List.range (im_h / tile_h)).map
            (fun iy => seqExcept ((List.range (im_w / tile_w)).map (fun ix =>
              identify_palette (rawTileAt image tile_h tile_w iy ix) palettes
                (origin.1, origin.2, ix, iy))))) with
        | .error e => .error e
        | .ok rows =>
            .ok (rows.map (fun r => r.map Prod.fst),
              rows.map (fun r => r.map Prod.snd)) := rfl
    rw [hdef, hrows]
  have hrowlen : ∀ r0 ∈ rows, r0.length = im_w / tile_w := by
    intro r0 hr0
    have hmem := (seqExcept_ok_lengths _ _ hrows).2 r0 hr0
    rcases List.mem_map.mp hmem with ⟨iy, hiy, hfy⟩
    rcases hin iy (List.mem_range.mp hiy) with ⟨row, h1, h2⟩
    rw [h1] at hfy
    have : row = r0 := Except.ok.inj hfy
    rw [← this]
    exact h2
  constructor
  · rw [hcut]; rfl
  · intro tiles pmap heq
    rw [hcut] at heq
    have hpair := Except.ok.inj heq
    have htiles : rows.map (fun r => r.map Prod.fst) = tiles := congrArg Prod.fst hpair
    have hpmap : rows.map (fun r => r.map Prod.snd) = pmap := congrArg Prod.snd hpair
    have hlenr : rows.length = im_h / tile_h := by simpa using hrowslen
    refine ⟨by rw [← htiles]; simpa using hlenr,
      by rw [← hpmap]; simpa using hlenr, ?_, ?_⟩
    · intro r hr
      rw [← htiles] at hr
      rcases List.mem_map.mp hr with ⟨r0, hr0, hfr⟩
      rw [← hfr]
      simpa using hrowlen r0 hr0
    · intro r hr
      rw [← hpmap] at hr
      rcases List.mem_map.mp hr with ⟨r0, hr0, hfr⟩
      rw [← hfr]
      simpa using hrowlen r0 hr0

/-- C6 witness: the 3×2 image of the counterexample also instantiates the
amended statement — all (one) complete tiles resolve, so cutting succeeds
with a 1×1 grid. -/
theorem cut_floor_division_witness :
    (cut_image_into_tiles 3 2 (fun _ _ => (0, 0, 0)) [[(0, 0, 0)]] (2, 2)
        (0, 0)).isOk = true ∧
    ∀ tiles pmap,
      cut_image_into_tiles 3 2 (fun _ _ => (0, 0, 0)) [[(0, 0, 0)]] (2, 2) (0, 0) =
        .ok (tiles, pmap) →
      tiles.length = 3 / 2 ∧ pmap.length = 3 / 2 ∧
      (∀ r ∈ tiles, r.length = 2 / 2) ∧
      (∀ r ∈ pmap, r.length = 2 / 2) :=
  cut_floor_division 3 2 (fun _ _ => (0, 0, 0)) [[(0, 0, 0)]] 2 2 (0, 0) (by decide)

/-! ## Bitplane conversion: bit positions (claim C4) -/

theorem planeByte_append (row : List Nat) (a ib : Nat) :
    planeByte (row ++ [a]) ib =
      (if a &&& (1 <<< ib) ≠ 0 then ((planeByte row ib <<< 1) % 256) ||| 1
       else (planeByte row ib <<< 1) % 256) := by
  unfold planeByte
  rw [List.foldl_append]
  rfl

theorem and_shift_ne_zero_iff (a ib : Nat) :
    a &&& (1 <<< ib) ≠ 0 ↔ a.testBit ib = true := by
  rw [Nat.shiftLeft_eq, one_mul, Nat.and_two_pow]
  cases h : a.testBit ib with
  | false => simp
  | true =>
    simp only [Bool.toNat_true, one_mul]
    have hne := (Nat.two_pow_pos ib).ne'
    simp [hne]

theorem testBit_one_succ (k : Nat) : Nat.testBit 1 (k + 1) = false := by
  rw [Nat.testBit_succ]
  norm_num

theorem planeByte_testBit (ib : Nat) (row : List Nat) :
    row.length ≤ 8 → ∀ i, i < row.length →
      (planeByte row ib).testBit (row.length - 1 - i) = (row.getD i 0).testBit ib := by
  induction row using List.reverseRecOn with
  | nil =>
    intro _ i hi
    simp at hi
  | append_singleton row a ih =>
    intro hlen i hi
    rw [List.length_append, List.length_singleton] at hlen hi ⊢
    have hr8 : row.length ≤ 7 := by omega
    rw [planeByte_append]
    have h256 : (256 : Nat) = 2 ^ 8 := by norm_num
    rcases Nat.lt_succ_iff_lt_or_eq.mp hi with hlt | heq
    · have hpos : row.length + 1 - 1 - i = (row.length - 1 - i) + 1 := by omega
      rw [hpos]
      have hgd : (row ++ [a]).getD i 0 = row.getD i 0 := by
        simp [List.getD_eq_getElem?_getD, List.getElem?_append_left hlt]
      rw [hgd]
      have hlt8 : row.length - 1 - i + 1 < 8 := by omega
      have hstep : ∀ b : Nat,
          ((b <<< 1) % 256).testBit (row.length - 1 - i + 1) =
            b.testBit (row.length - 1 - i) := by
        intro b
        rw [h256, Nat.testBit_mod_two_pow, Nat.testBit_shiftLeft]
        simp [hlt8]
      rcases Decidable.em (a &&& (1 <<< ib) ≠ 0) with hc | hc
      · rw [if_pos hc, Nat.testBit_or, hstep, testBit_one_succ, Bool.or_false]
        exact ih (by omega) i hlt
      · rw [if_neg hc, hstep]
        exact ih (by omega) i hlt
    · subst heq
      have hpos : row.length + 1 - 1 - row.length = 0 := by omega
      rw [hpos]
      have hgd : (row ++ [a]).getD row.length 0 = a := by
        simp [List.getD_eq_getElem?_getD,
          List.getElem?_append_right (Nat.le_refl row.length)]
      rw [hgd]
      have hb0 : ∀ b : Nat, ((b <<< 1) % 256).testBit 0 = false := by
        intro b
        rw [h256, Nat.testBit_mod_two_pow, Nat.testBit_shiftLeft]
        simp
      rcases Decidable.em (a &&& (1 <<< ib) ≠ 0) with hc | hc
      · rw [if_pos hc, Nat.testBit_or, hb0, Bool.false_or]
        rw [(and_shift_ne_zero_iff a ib).mp hc]
        rfl
      · rw [if_neg hc, hb0]
        have := (and_shift_ne_zero_iff a ib).not.mp hc
        simp only [Bool.not_eq_true] at this
        rw [this]

/-! ## Claim C4 -/

/-- C4 counterexample: the tile row `[1,0,0,0,0,0,0,0]` (pixel 0 has bit 0
set) converted with one bitplane yields the byte `128 = 0b10000000`: bit 0 of
the byte is clear although pixel 0's value has bit 0 set — the byte's bit `i`
corresponds to pixel `7 - i`, not pixel `i`. -/
theorem bitplanes_bit_index_cex :
    convert_to_bitplanes [[[1, 0, 0, 0, 0, 0, 0, 0]]] 1 0 0 0 = 128 ∧
    Nat.testBit (convert_to_bitplanes [[[1, 0, 0, 0, 0, 0, 0, 0]]] 1 0 0 0) 0 = false ∧
    Nat.testBit 1 0 = true := by
  decide

/-- C4, amended: pixels are accumulated most-significant-bit first — for a
row of width `w ≤ 8`, bit `w - 1 - i` (not bit `i`) of plane `p`'s byte for
a row is set iff pixel `i`'s value has bit `p` set. -/
theorem bitplanes_msb_first (tileset : List Tile) (bit_count ib it ty i : Nat)
    (hib : ib < bit_count) (hit : it < tileset.length) (hty : ty < 8)
    (hw : ((tileset.getD it []).getD ty []).length ≤ 8)
    (hi : i < ((tileset.getD it []).getD ty []).length) :
    (convert_to_bitplanes tileset bit_count ib it ty).testBit
        (((tileset.getD it []).getD ty []).length - 1 - i) =
      (((tileset.getD it []).getD ty []).getD i 0).testBit ib := by
  unfold convert_to_bitplanes
  rw [if_pos ⟨hib, hit, hty⟩]
  exact planeByte_testBit ib _ hw i hi

/-- C4 witness: tile row `[1, 2, 3]`, plane 1: bit `3 - 1 - 0 = 2` of the
plane byte equals bit 1 of pixel 0's value `1` (both are `false`). -/
theorem bitplanes_msb_first_witness :
    (convert_to_bitplanes [[[1, 2, 3]]] 2 1 0 0).testBit
        (((([[[1, 2, 3]]] : List Tile).getD 0 []).getD 0 []).length - 1 - 0) =
      (((([[[1, 2, 3]]] : List Tile).getD 0 []).getD 0 []).getD 0 0).testBit 1 :=
  bitplanes_msb_first [[[1, 2, 3]]] 2 1 0 0 0 (by decide) (by decide) (by decide)
    (by decide) (by decide)

/-! ## Claim C3 -/

theorem serial_nes_index (B : Nat → Nat → Nat → Nat) (bp it row : Nat)
    (hbp : bp < 2) (hit : it < 256) (hrow : row < 8) :
    serial_nes B (row + 8 * (bp + 2 * it)) = B bp it row := by
  unfold serial_nes
  rw [if_pos (by omega)]
  have e1 : (row + 8 * (bp + 2 * it)) / 8 % 2 = bp := by omega
  have e2 : (row + 8 * (bp + 2 * it)) / 16 = it := by omega
  have e3 : (row + 8 * (bp + 2 * it)) % 8 = row := by omega
  rw [e1, e2, e3]

/-- A bitplane array whose plane-1 bytes (value ≥ 10000) are distinguishable
from every plane-0 byte (value < 10000). -/
def nesBpCex : Nat → Nat → Nat → Nat := fun bp it row => 10000 * bp + 8 * it + row

/-- C3 counterexample: in the `serial_nes` output the byte at index 8 is the
plane-1 byte of tile 0, row 0, while the byte at the *later* index 16 is the
plane-0 byte of tile 1, row 0 — so not every plane-0 byte precedes every
plane-1 byte (the value 10000 at index 8 is provably not any plane-0
byte). -/
theorem serial_nes_plane_separation_cex :
    serial_nes nesBpCex 8 = 10000 ∧
    nesBpCex 1 0 0 = 10000 ∧
    serial_nes nesBpCex 16 = 8 ∧
    nesBpCex 0 1 0 = 8 ∧
    (∀ it, it < 256 → ∀ row, row < 8 → nesBpCex 0 it row < 10000) ∧
    (8 : Nat) < 16 := by
  refine ⟨rfl, rfl, rfl, rfl, ?_, by decide⟩
  intro it hit row hrow
  simp only [nesBpCex]
  omega

/-- C3, corrected: `serial_nes` interleaves the two planes per tile — tile
`it` occupies the 16 consecutive output bytes `[16·it, 16·it + 16)`, its 8
plane-0 row bytes first, immediately followed by its 8 plane-1 row bytes
(so plane-1 bytes of a tile precede plane-0 bytes of every later tile). -/
theorem serial_nes_per_tile_interleaving (B : Nat → Nat → Nat → Nat) (it row : Nat)
    (hit : it < 256) (hrow : row < 8) :
    serial_nes B (16 * it + row) = B 0 it row ∧
    serial_nes B (16 * it + 8 + row) = B 1 it row := by
  constructor
  · have h := serial_nes_index B 0 it row (by omega) hit hrow
    rw [show 16 * it + row = row + 8 * (0 + 2 * it) by ring]
    exact h
  · have h := serial_nes_index B 1 it row (by omega) hit hrow
    rw [show 16 * it + 8 + row = row + 8 * (1 + 2 * it) by ring]
    exact h

/-- C3 witness: tile 1, row 3. -/
theorem serial_nes_per_tile_interleaving_witness :
    serial_nes nesBpCex (16 * 1 + 3) = nesBpCex 0 1 3 ∧
    serial_nes nesBpCex (16 * 1 + 8 + 3) = nesBpCex 1 1 3 :=
  serial_nes_per_tile_interleaving nesBpCex 1 3 (by decide) (by decide)

/-! ## Claim C5 -/

/-- C5: evaluation at the failing input.  The registered Megadrive profile
leaves `use_bitplanes` at its default `True`, so `process` serializes `'md'`
through `convert_to_bitplanes` and `serial_intertwined` — the explicit
`'md'` → `serial_megadrive` branch of the dispatch is unreachable for it.
For the one-tile tileset whose first row starts with the pixel pair
`(0xF, 0x3)`, the emitted byte at the pair's position is the bitplane byte
`3`, not the `0xF3` the claim prescribes; the last conjunct shows the
unreachable `serial_megadrive` itself would emit `0xF3` there, as the claim
(and the serializer's own Megadrive docstring) states. -/
theorem megadrive_profile_bitplane_dispatch :
    md_profile.use_bitplanes = true ∧
    process_serial md_profile [[[15, 3]]] =
      some (serial_intertwined (convert_to_bitplanes [[[15, 3]]] 4) 4 1 4) ∧
    serial_intertwined (convert_to_bitplanes [[[15, 3]]] 4) 4 1 4 0 = 3 ∧
    (3 : Nat) ≠ 0xF3 ∧
    serial_megadrive [[[15, 3]]] 0 = 0xF3 :=
  ⟨rfl, rfl, by decide, by decide, by decide⟩

end Serpentine
